import Mathlib

/-!
# Verification of the point-trace editor core

Shallow embedding of `src/point_trace_editor.py` (class `PointTraceEditor`).

Pointer coordinates delivered by Tk (`event.x`, `event.y`) are integers, so
the editor state is modelled over `ℤ`.  Inside the geometric helpers Python
promotes to float (true division, `** 0.5`); we idealise floating point as
exact arithmetic: rational for the field operations, `Real.sqrt` for the
square roots.  The executable editor logic compares squared distances
against squared thresholds, which is equivalent to the source's comparison
`sqrt d <= r` for the nonnegative thresholds used (see `sqrt_le_cast_iff`).
-/

namespace PointTrace

/-- `self.point_radius = 3` (from `__init__`). -/
def point_radius : ℤ := 3

/-- `click_radius = self.point_radius + 5` (from `find_point_at_position`). -/
def click_radius : ℤ := point_radius + 5

/-- `line_click_tolerance = 5` (from `find_line_at_position`). -/
def line_click_tolerance : ℤ := 5

/-- Squared Euclidean distance `(x - px) ** 2 + (y - py) ** 2` between pixel
positions (from `find_point_at_position`; the source takes `** 0.5` of it). -/
def distSq (x y px py : ℤ) : ℤ := (x - px) ^ 2 + (y - py) ^ 2

/-- Euclidean distance `((px - qx) ** 2 + (py - qy) ** 2) ** 0.5` between two
(possibly non-integral) points. -/
noncomputable def distance (px py qx qy : ℚ) : ℝ :=
  Real.sqrt (((px - qx) ^ 2 + (py - qy) ^ 2 : ℚ) : ℝ)

/-- `line_length_squared = line_vec_x**2 + line_vec_y**2`
(from `point_to_line_distance`, non-degenerate branch). -/
def line_length_squared (x1 y1 x2 y2 : ℚ) : ℚ := (x2 - x1) ^ 2 + (y2 - y1) ^ 2

/-- `dot_product_point_line = point_vec_x * line_vec_x + point_vec_y * line_vec_y`
(from `point_to_line_distance`). -/
def dot_product_point_line (px py x1 y1 x2 y2 : ℚ) : ℚ :=
  (px - x1) * (x2 - x1) + (py - y1) * (y2 - y1)

/-- `projection = dot_product_point_line / line_length_squared`
(from `point_to_line_distance`, before clamping). -/
def projection_raw (px py x1 y1 x2 y2 : ℚ) : ℚ :=
  dot_product_point_line px py x1 y1 x2 y2 / line_length_squared x1 y1 x2 y2

/-- `projection = max(0, min(1, projection))` (from `point_to_line_distance`). -/
def projection_clamped (px py x1 y1 x2 y2 : ℚ) : ℚ :=
  max 0 (min 1 (projection_raw px py x1 y1 x2 y2))

/-- Square of `PointTraceEditor.point_to_line_distance`: both branches of the
source return `(...)**0.5` of this quantity.  Degenerate branch:
`if (x1 == x2) and (y1 == y2)`. -/
def point_to_line_distance_sq (px py x1 y1 x2 y2 : ℚ) : ℚ :=
  if x1 = x2 ∧ y1 = y2 then
    (px - x1) ^ 2 + (py - y1) ^ 2
  else
    let projection := projection_clamped px py x1 y1 x2 y2
    let closest_x := x1 + projection * (x2 - x1)
    let closest_y := y1 + projection * (y2 - y1)
    (px - closest_x) ^ 2 + (py - closest_y) ^ 2

/-- `PointTraceEditor.point_to_line_distance`: the distance returned by the
source (`Real.sqrt` commutes with the branch of the `if`). -/
noncomputable def point_to_line_distance (px py x1 y1 x2 y2 : ℚ) : ℝ :=
  Real.sqrt ((point_to_line_distance_sq px py x1 y1 x2 y2 : ℚ) : ℝ)

/-- The scan of `find_point_at_position`: `for i, (px, py) in enumerate(self.points)`,
returning the first index whose point is within `click_radius`; `n` is the index
of the head of the remaining list.  The source compares
`((x-px)**2 + (y-py)**2)**0.5 <= click_radius`; we compare squares, which is
equivalent (`sqrt_le_cast_iff`). -/
def find_point_from (x y : ℤ) : Nat → List (ℤ × ℤ) → Option Nat
  | _, [] => none
  | n, (px, py) :: rest =>
    if distSq x y px py ≤ click_radius ^ 2 then some n
    else find_point_from x y (n + 1) rest

/-- `PointTraceEditor.find_point_at_position`. -/
def find_point_at_position (points : List (ℤ × ℤ)) (x y : ℤ) : Option Nat :=
  find_point_from x y 0 points

/-- The scan of `find_line_at_position`: `for i in range(len(self.points) - 1)`,
checking consecutive pairs; returns the first index whose segment is within
`line_click_tolerance`.  Integer pixels are promoted to exact rationals where
Python promotes to float.  Squared comparison, equivalent to the source's. -/
def find_line_from (x y : ℤ) : Nat → List (ℤ × ℤ) → Option Nat
  | n, (x1, y1) :: (x2, y2) :: rest =>
    if point_to_line_distance_sq (x : ℚ) (y : ℚ) (x1 : ℚ) (y1 : ℚ) (x2 : ℚ) (y2 : ℚ) ≤
        (line_click_tolerance : ℚ) ^ 2 then some n
    else find_line_from x y (n + 1) ((x2, y2) :: rest)
  | _, _ => none

/-- `PointTraceEditor.find_line_at_position` (including the
`if len(self.points) < 2: return None` guard). -/
def find_line_at_position (points : List (ℤ × ℤ)) (x y : ℤ) : Option Nat :=
  if points.length < 2 then none
  else find_line_from x y 0 points

/-- The mutable fields of `PointTraceEditor` relevant to the editing model
(from `__init__`): the point list, the drag state and the tracked mouse
position.  Rendering/widget fields are outside the model. -/
structure EditorState where
  points : List (ℤ × ℤ)
  dragging : Bool
  drag_point_index : Option Nat
  drag_start_x : ℤ
  drag_start_y : ℤ
  mouse_x : ℤ
  mouse_y : ℤ
deriving DecidableEq, Repr

/-- The state set up by `__init__`: empty list, no drag, zeroed coordinates. -/
def initState : EditorState :=
  { points := [], dragging := false, drag_point_index := none
    drag_start_x := 0, drag_start_y := 0, mouse_x := 0, mouse_y := 0 }

/-- `PointTraceEditor.on_canvas_click`.  `list.insert(i, v)` at the valid
index `i = line_segment + 1 <= len - 1` is `List.insertIdx`. -/
def on_canvas_click (s : EditorState) (x y : ℤ) : EditorState :=
  match find_point_at_position s.points x y with
  | some i =>
    { s with dragging := true, drag_point_index := some i
             drag_start_x := x, drag_start_y := y }
  | none =>
    match find_line_at_position s.points x y with
    | some line_segment =>
      { s with points := s.points.insertIdx (line_segment + 1) (x, y) }
    | none =>
      { s with points := s.points ++ [(x, y)] }

/-- `PointTraceEditor.on_canvas_drag`.  `none` models an uncaught
`IndexError` from `self.points[self.drag_point_index] = (x, y)` when the
stored index is out of range (possible after a delete while dragging); the
raising statement precedes every state mutation of the handler, so the state
is unchanged in that case. -/
def on_canvas_drag (s : EditorState) (x y : ℤ) : Option EditorState :=
  if s.dragging then
    match s.drag_point_index with
    | some i =>
      if i < s.points.length then some { s with points := s.points.set i (x, y) }
      else none
    | none => some s
  else some s

/-- `PointTraceEditor.on_canvas_release`.  `none` models an uncaught
`IndexError`/`TypeError` from `self.points[self.drag_point_index] = (x, y)`;
it is raised before the drag state is reset, so the state is unchanged. -/
def on_canvas_release (s : EditorState) (x y : ℤ) : Option EditorState :=
  if s.dragging then
    match s.drag_point_index with
    | some i =>
      if i < s.points.length then
        some { s with points := s.points.set i (x, y)
                      dragging := false, drag_point_index := none }
      else none
    | none => none
  else some s

/-- `PointTraceEditor.on_mouse_move`. -/
def on_mouse_move (s : EditorState) (x y : ℤ) : EditorState :=
  { s with mouse_x := x, mouse_y := y }

/-- `PointTraceEditor.delete_point_at_mouse`.  `list.pop(i)` for a valid
index `i` is `List.eraseIdx`; the `else` branch only sets the status text. -/
def delete_point_at_mouse (s : EditorState) : EditorState :=
  match find_point_at_position s.points s.mouse_x s.mouse_y with
  | some point_index => { s with points := s.points.eraseIdx point_index }
  | none => s

/-- `PointTraceEditor.clear_points`: `self.points.clear()` and redraws;
no other field is touched. -/
def clear_points (s : EditorState) : EditorState :=
  { s with points := [] }

/-- The normalized input events delivered by the Tk bindings of `__init__`:
`<Button-1>`, `<B1-Motion>`, `<ButtonRelease-1>`, `<Motion>`, the `d` key
(`on_key_press`), and the "Clear All Points" button. -/
inductive Event where
  | click (x y : ℤ)
  | drag (x y : ℤ)
  | release (x y : ℤ)
  | move (x y : ℤ)
  | keyD
  | clearAll
deriving DecidableEq, Repr

/-- One event dispatch.  For the two handlers that can raise, Tk reports the
callback exception and keeps running; since the raising statement is the
first state mutation of those handlers, an exception leaves the state
unchanged (`Option.getD s`). -/
def step (s : EditorState) (e : Event) : EditorState :=
  match e with
  | .click x y => on_canvas_click s x y
  | .drag x y => (on_canvas_drag s x y).getD s
  | .release x y => (on_canvas_release s x y).getD s
  | .move x y => on_mouse_move s x y
  | .keyD => delete_point_at_mouse s
  | .clearAll => clear_points s

/-- Run an event sequence from the initial state. -/
def run (events : List Event) : EditorState :=
  events.foldl step initState

/-- A state is reachable when some event sequence produces it. -/
def Reachable (s : EditorState) : Prop := ∃ events, run events = s

/-- `coord_list = ", ".join([f"({x}, {y})" for x, y in self.points])`
(from `copy_coordinates`). -/
def coord_list (points : List (ℤ × ℤ)) : String :=
  String.intercalate ", "
    (points.map fun p => "(" ++ toString p.1 ++ ", " ++ toString p.2 ++ ")")

/-- `PointTraceEditor.copy_coordinates`: on an empty list the source shows a
warning dialog and returns without copying anything (`none`); otherwise the
joined coordinate string is placed on the clipboard (`some`). -/
def copy_coordinates (points : List (ℤ × ℤ)) : Option String :=
  if points = [] then none
  else some (coord_list points)

/-! ## Statement vocabulary

`PointHit points x y i` states, in the spec's terms, that point `i` of the
trace lies within `click_radius` (Euclidean distance) of the position
`(x, y)`; `SegmentHit points x y i` states that segment `i` (joining points
`i` and `i + 1`) lies within `line_click_tolerance` of it.  The `...Sq`
versions are the equivalent squared-distance forms the executable scans
use. -/

def PointHit (points : List (ℤ × ℤ)) (x y : ℤ) (i : ℕ) : Prop :=
  ∃ px py, points[i]? = some (px, py) ∧
    distance (x : ℚ) (y : ℚ) (px : ℚ) (py : ℚ) ≤ ((click_radius : ℤ) : ℝ)

def PointHitSq (points : List (ℤ × ℤ)) (x y : ℤ) (i : ℕ) : Prop :=
  ∃ px py, points[i]? = some (px, py) ∧ distSq x y px py ≤ click_radius ^ 2

def SegmentHit (points : List (ℤ × ℤ)) (x y : ℤ) (i : ℕ) : Prop :=
  ∃ x1 y1 x2 y2, points[i]? = some (x1, y1) ∧ points[i + 1]? = some (x2, y2) ∧
    point_to_line_distance (x : ℚ) (y : ℚ) (x1 : ℚ) (y1 : ℚ) (x2 : ℚ) (y2 : ℚ) ≤
      ((line_click_tolerance : ℤ) : ℝ)

def SegmentHitSq (points : List (ℤ × ℤ)) (x y : ℤ) (i : ℕ) : Prop :=
  ∃ x1 y1 x2 y2, points[i]? = some (x1, y1) ∧ points[i + 1]? = some (x2, y2) ∧
    point_to_line_distance_sq (x : ℚ) (y : ℚ) (x1 : ℚ) (y1 : ℚ) (x2 : ℚ) (y2 : ℚ) ≤
      ((line_click_tolerance : ℤ) : ℚ) ^ 2

/-- `self.dragging` is `True` exactly when `self.drag_point_index` is not
`None`. -/
def DragSync (s : EditorState) : Prop := s.dragging = true ↔ s.drag_point_index ≠ none

/-- If present, the stored drag index is a valid index of the point list. -/
def DragIndexValid (s : EditorState) : Prop :=
  ∀ i, s.drag_point_index = some i → i < s.points.length

/-- Event sequences in which deletion (`d` key) and clearing only happen
while no drag is active: the reachability notion under which the drag-index
validity invariant actually holds in this code. -/
inductive SafeReachable : EditorState → Prop where
  | init : SafeReachable initState
  | next (s : EditorState) (e : Event) (hs : SafeReachable s)
      (hsafe : (e = Event.keyD ∨ e = Event.clearAll) → s.dragging = false) :
      SafeReachable (step s e)

/-- Invariant carried through a drag of point `i` that started from state
`s0`: still dragging the same index, same length, and all other points
untouched. -/
def DragInv (s0 : EditorState) (i : ℕ) (t : EditorState) : Prop :=
  t.dragging = true ∧ t.drag_point_index = some i ∧
    t.points.length = s0.points.length ∧
    ∀ j, j ≠ i → t.points[j]? = s0.points[j]?

/-! ## Basic facts about the geometry -/

theorem distSq_nonneg (x y px py : ℤ) : 0 ≤ distSq x y px py := by
  unfold distSq; positivity

theorem point_to_line_distance_sq_nonneg (px py x1 y1 x2 y2 : ℚ) :
    0 ≤ point_to_line_distance_sq px py x1 y1 x2 y2 := by
  unfold point_to_line_distance_sq
  split
  · positivity
  · dsimp only
    positivity

/-- The source compares `sqrt d <= r`; for a nonnegative threshold this is
the same as comparing `d <= r ^ 2`. -/
theorem sqrt_le_cast_iff {d r : ℚ} (hr : 0 ≤ r) :
    Real.sqrt (d : ℝ) ≤ (r : ℝ) ↔ d ≤ r ^ 2 := by
  rw [Real.sqrt_le_left (by exact_mod_cast hr)]
  exact_mod_cast Iff.rfl

theorem click_radius_eq : click_radius = 8 := by decide

theorem distance_cast_le_click_iff (x y px py : ℤ) :
    distance (x : ℚ) (y : ℚ) (px : ℚ) (py : ℚ) ≤ ((click_radius : ℤ) : ℝ) ↔
      distSq x y px py ≤ click_radius ^ 2 := by
  unfold distance
  have h1 : (((x : ℚ) - (px : ℚ)) ^ 2 + ((y : ℚ) - (py : ℚ)) ^ 2)
      = ((distSq x y px py : ℤ) : ℚ) := by
    unfold distSq; push_cast; ring
  have h2 : ((click_radius : ℤ) : ℝ) = (((click_radius : ℤ) : ℚ) : ℝ) := by
    norm_cast
  rw [h1, h2, sqrt_le_cast_iff (by rw [click_radius_eq]; norm_num)]
  exact_mod_cast Iff.rfl

theorem point_to_line_distance_le_tol_iff (px py x1 y1 x2 y2 : ℚ) :
    point_to_line_distance px py x1 y1 x2 y2 ≤ ((line_click_tolerance : ℤ) : ℝ) ↔
      point_to_line_distance_sq px py x1 y1 x2 y2 ≤ ((line_click_tolerance : ℤ) : ℚ) ^ 2 := by
  unfold point_to_line_distance
  have h2 : ((line_click_tolerance : ℤ) : ℝ) = (((line_click_tolerance : ℤ) : ℚ) : ℝ) := by
    norm_cast
  rw [h2, sqrt_le_cast_iff (by norm_num [line_click_tolerance])]

/-! ## The hit tests are first-match scans -/

theorem pointHit_iff_sq (points : List (ℤ × ℤ)) (x y : ℤ) (i : ℕ) :
    PointHit points x y i ↔ PointHitSq points x y i := by
  unfold PointHit PointHitSq
  constructor
  · rintro ⟨px, py, hget, hd⟩
    exact ⟨px, py, hget, (distance_cast_le_click_iff x y px py).mp hd⟩
  · rintro ⟨px, py, hget, hd⟩
    exact ⟨px, py, hget, (distance_cast_le_click_iff x y px py).mpr hd⟩

theorem segmentHit_iff_sq (points : List (ℤ × ℤ)) (x y : ℤ) (i : ℕ) :
    SegmentHit points x y i ↔ SegmentHitSq points x y i := by
  unfold SegmentHit SegmentHitSq
  constructor
  · rintro ⟨x1, y1, x2, y2, h1, h2, hd⟩
    exact ⟨x1, y1, x2, y2, h1, h2, (point_to_line_distance_le_tol_iff _ _ _ _ _ _).mp hd⟩
  · rintro ⟨x1, y1, x2, y2, h1, h2, hd⟩
    exact ⟨x1, y1, x2, y2, h1, h2, (point_to_line_distance_le_tol_iff _ _ _ _ _ _).mpr hd⟩

theorem pointHitSq_cons_succ (p : ℤ × ℤ) (l : List (ℤ × ℤ)) (x y : ℤ) (j : ℕ) :
    PointHitSq (p :: l) x y (j + 1) ↔ PointHitSq l x y j := by
  unfold PointHitSq; simp

theorem pointHitSq_cons_zero (px py : ℤ) (l : List (ℤ × ℤ)) (x y : ℤ) :
    PointHitSq ((px, py) :: l) x y 0 ↔ distSq x y px py ≤ click_radius ^ 2 := by
  unfold PointHitSq
  simp only [List.getElem?_cons_zero, Option.some_inj]
  constructor
  · rintro ⟨px', py', h, hd⟩
    cases h
    exact hd
  · intro hd
    exact ⟨px, py, rfl, hd⟩

theorem pointHitSq_lt_length {points : List (ℤ × ℤ)} {x y : ℤ} {i : ℕ}
    (h : PointHitSq points x y i) : i < points.length := by
  obtain ⟨px, py, hget, -⟩ := h
  exact (List.getElem?_eq_some.mp hget).1

theorem find_point_from_eq_some_iff (x y : ℤ) (l : List (ℤ × ℤ)) :
    ∀ (n k : ℕ), find_point_from x y n l = some k ↔
      ∃ j, k = n + j ∧ PointHitSq l x y j ∧ ∀ m < j, ¬ PointHitSq l x y m := by
  induction l with
  | nil =>
    intro n k
    simp only [find_point_from]
    constructor
    · intro h; cases h
    · rintro ⟨j, -, hj, -⟩
      exact absurd (pointHitSq_lt_length hj) (by simp)
  | cons p rest ih =>
    intro n k
    obtain ⟨px, py⟩ := p
    by_cases h : distSq x y px py ≤ click_radius ^ 2
    · simp only [find_point_from, if_pos h]
      constructor
      · intro hk
        refine ⟨0, by simpa using (Option.some_inj.mp hk).symm, ?_, by simp⟩
        exact (pointHitSq_cons_zero px py rest x y).mpr h
      · rintro ⟨j, rfl, hj, hmin⟩
        cases j with
        | zero => simp
        | succ j' =>
          exact absurd ((pointHitSq_cons_zero px py rest x y).mpr h)
            (hmin 0 (Nat.succ_pos _))
    · simp only [find_point_from, if_neg h]
      rw [ih (n + 1) k]
      constructor
      · rintro ⟨j, rfl, hj, hmin⟩
        refine ⟨j + 1, by omega, (pointHitSq_cons_succ _ _ _ _ _).mpr hj, ?_⟩
        intro m hm
        cases m with
        | zero => rw [pointHitSq_cons_zero]; exact h
        | succ m' =>
          rw [pointHitSq_cons_succ]
          exact hmin m' (by omega)
      · rintro ⟨j, rfl, hj, hmin⟩
        cases j with
        | zero => exact absurd ((pointHitSq_cons_zero px py rest x y).mp hj) h
        | succ j' =>
          refine ⟨j', by omega, (pointHitSq_cons_succ _ _ _ _ _).mp hj, ?_⟩
          intro m hm hhit
          exact hmin (m + 1) (by omega) ((pointHitSq_cons_succ _ _ _ _ _).mpr hhit)

theorem find_point_from_eq_none_iff (x y : ℤ) (l : List (ℤ × ℤ)) :
    ∀ (n : ℕ), find_point_from x y n l = none ↔ ∀ j, ¬ PointHitSq l x y j := by
  induction l with
  | nil =>
    intro n
    simp only [find_point_from]
    constructor
    · intro _ j hj
      exact absurd (pointHitSq_lt_length hj) (by simp)
    · intro _
      trivial
  | cons p rest ih =>
    intro n
    obtain ⟨px, py⟩ := p
    by_cases h : distSq x y px py ≤ click_radius ^ 2
    · simp only [find_point_from, if_pos h]
      constructor
      · intro hk; cases hk
      · intro hall
        exact absurd ((pointHitSq_cons_zero px py rest x y).mpr h) (hall 0)
    · simp only [find_point_from, if_neg h]
      rw [ih (n + 1)]
      constructor
      · intro hall j
        cases j with
        | zero => rw [pointHitSq_cons_zero]; exact h
        | succ j' =>
          rw [pointHitSq_cons_succ]
          exact hall j'
      · intro hall j
        exact fun hj => hall (j + 1) ((pointHitSq_cons_succ _ _ _ _ _).mpr hj)

theorem find_point_at_position_eq_some_iff (points : List (ℤ × ℤ)) (x y : ℤ) (i : ℕ) :
    find_point_at_position points x y = some i ↔
      PointHitSq points x y i ∧ ∀ m < i, ¬ PointHitSq points x y m := by
  unfold find_point_at_position
  rw [find_point_from_eq_some_iff x y points 0 i]
  constructor
  · rintro ⟨j, rfl, hj, hmin⟩
    exact ⟨by simpa using hj, by simpa using hmin⟩
  · rintro ⟨hi, hmin⟩
    exact ⟨i, by omega, hi, hmin⟩

theorem find_point_at_position_eq_none_iff (points : List (ℤ × ℤ)) (x y : ℤ) :
    find_point_at_position points x y = none ↔ ∀ j, ¬ PointHitSq points x y j :=
  find_point_from_eq_none_iff x y points 0

theorem find_point_at_position_lt_length {points : List (ℤ × ℤ)} {x y : ℤ} {i : ℕ}
    (h : find_point_at_position points x y = some i) : i < points.length :=
  pointHitSq_lt_length ((find_point_at_position_eq_some_iff points x y i).mp h).1

theorem segmentHitSq_cons_succ (p : ℤ × ℤ) (l : List (ℤ × ℤ)) (x y : ℤ) (j : ℕ) :
    SegmentHitSq (p :: l) x y (j + 1) ↔ SegmentHitSq l x y j := by
  unfold SegmentHitSq; simp

theorem segmentHitSq_cons₂_zero (x1 y1 x2 y2 : ℤ) (rest : List (ℤ × ℤ)) (x y : ℤ) :
    SegmentHitSq ((x1, y1) :: (x2, y2) :: rest) x y 0 ↔
      point_to_line_distance_sq (x : ℚ) (y : ℚ) (x1 : ℚ) (y1 : ℚ) (x2 : ℚ) (y2 : ℚ) ≤
        ((line_click_tolerance : ℤ) : ℚ) ^ 2 := by
  unfold SegmentHitSq
  simp only [List.getElem?_cons_zero, List.getElem?_cons_succ, Option.some_inj, Nat.zero_add]
  constructor
  · rintro ⟨x1', y1', x2', y2', h1, h2, hd⟩
    cases h1
    cases h2
    exact hd
  · intro hd
    exact ⟨x1, y1, x2, y2, rfl, rfl, hd⟩

theorem segmentHitSq_succ_lt_length {points : List (ℤ × ℤ)} {x y : ℤ} {i : ℕ}
    (h : SegmentHitSq points x y i) : i + 1 < points.length := by
  obtain ⟨x1, y1, x2, y2, -, h2, -⟩ := h
  exact (List.getElem?_eq_some.mp h2).1

theorem find_line_from_eq_some_iff (x y : ℤ) (l : List (ℤ × ℤ)) :
    ∀ (n k : ℕ), find_line_from x y n l = some k ↔
      ∃ j, k = n + j ∧ SegmentHitSq l x y j ∧ ∀ m < j, ¬ SegmentHitSq l x y m := by
  induction l with
  | nil =>
    intro n k
    simp only [find_line_from]
    constructor
    · intro h; cases h
    · rintro ⟨j, -, hj, -⟩
      exact absurd (segmentHitSq_succ_lt_length hj) (by simp)
  | cons p rest ih =>
    intro n k
    obtain ⟨x1, y1⟩ := p
    match rest, ih with
    | [], _ =>
      simp only [find_line_from]
      constructor
      · intro h; cases h
      · rintro ⟨j, -, hj, -⟩
        have := segmentHitSq_succ_lt_length hj
        simp at this
    | (x2, y2) :: rest', ih =>
      by_cases h : point_to_line_distance_sq (x : ℚ) (y : ℚ) (x1 : ℚ) (y1 : ℚ) (x2 : ℚ) (y2 : ℚ) ≤
          ((line_click_tolerance : ℤ) : ℚ) ^ 2
      · simp only [find_line_from, if_pos h]
        constructor
        · intro hk
          refine ⟨0, by simpa using (Option.some_inj.mp hk).symm, ?_, by simp⟩
          exact (segmentHitSq_cons₂_zero x1 y1 x2 y2 rest' x y).mpr h
        · rintro ⟨j, rfl, hj, hmin⟩
          cases j with
          | zero => simp
          | succ j' =>
            exact absurd ((segmentHitSq_cons₂_zero x1 y1 x2 y2 rest' x y).mpr h)
              (hmin 0 (Nat.succ_pos _))
      · simp only [find_line_from, if_neg h]
        rw [ih (n + 1) k]
        constructor
        · rintro ⟨j, rfl, hj, hmin⟩
          refine ⟨j + 1, by omega, (segmentHitSq_cons_succ _ _ _ _ _).mpr hj, ?_⟩
          intro m hm
          cases m with
          | zero => rw [segmentHitSq_cons₂_zero]; exact h
          | succ m' =>
            rw [segmentHitSq_cons_succ]
            exact hmin m' (by omega)
        · rintro ⟨j, rfl, hj, hmin⟩
          cases j with
          | zero => exact absurd ((segmentHitSq_cons₂_zero x1 y1 x2 y2 rest' x y).mp hj) h
          | succ j' =>
            refine ⟨j', by omega, (segmentHitSq_cons_succ _ _ _ _ _).mp hj, ?_⟩
            intro m hm hhit
            exact hmin (m + 1) (by omega) ((segmentHitSq_cons_succ _ _ _ _ _).mpr hhit)

theorem find_line_from_eq_none_iff (x y : ℤ) (l : List (ℤ × ℤ)) :
    ∀ (n : ℕ), find_line_from x y n l = none ↔ ∀ j, ¬ SegmentHitSq l x y j := by
  induction l with
  | nil =>
    intro n
    simp only [find_line_from]
    constructor
    · intro _ j hj
      exact absurd (segmentHitSq_succ_lt_length hj) (by simp)
    · intro _
      trivial
  | cons p rest ih =>
    intro n
    obtain ⟨x1, y1⟩ := p
    match rest, ih with
    | [], _ =>
      simp only [find_line_from]
      constructor
      · intro _ j hj
        have := segmentHitSq_succ_lt_length hj
        simp at this
      · intro _
        trivial
    | (x2, y2) :: rest', ih =>
      by_cases h : point_to_line_distance_sq (x : ℚ) (y : ℚ) (x1 : ℚ) (y1 : ℚ) (x2 : ℚ) (y2 : ℚ) ≤
          ((line_click_tolerance : ℤ) : ℚ) ^ 2
      · simp only [find_line_from, if_pos h]
        constructor
        · intro hk; cases hk
        · intro hall
          exact absurd ((segmentHitSq_cons₂_zero x1 y1 x2 y2 rest' x y).mpr h) (hall 0)
      · simp only [find_line_from, if_neg h]
        rw [ih (n + 1)]
        constructor
        · intro hall j
          cases j with
          | zero => rw [segmentHitSq_cons₂_zero]; exact h
          | succ j' =>
            rw [segmentHitSq_cons_succ]
            exact hall j'
        · intro hall j
          exact fun hj => hall (j + 1) ((segmentHitSq_cons_succ _ _ _ _ _).mpr hj)

theorem find_line_at_position_eq_some_iff (points : List (ℤ × ℤ)) (x y : ℤ) (i : ℕ) :
    find_line_at_position points x y = some i ↔
      SegmentHitSq points x y i ∧ ∀ m < i, ¬ SegmentHitSq points x y m := by
  unfold find_line_at_position
  by_cases hlen : points.length < 2
  · rw [if_pos hlen]
    constructor
    · intro h; cases h
    · rintro ⟨hi, -⟩
      have := segmentHitSq_succ_lt_length hi
      omega
  · rw [if_neg hlen, find_line_from_eq_some_iff x y points 0 i]
    constructor
    · rintro ⟨j, rfl, hj, hmin⟩
      exact ⟨by simpa using hj, by simpa using hmin⟩
    · rintro ⟨hi, hmin⟩
      exact ⟨i, by omega, hi, hmin⟩

theorem find_line_at_position_eq_none_iff (points : List (ℤ × ℤ)) (x y : ℤ) :
    find_line_at_position points x y = none ↔ ∀ j, ¬ SegmentHitSq points x y j := by
  unfold find_line_at_position
  by_cases hlen : points.length < 2
  · rw [if_pos hlen]
    constructor
    · intro _ j hj
      have := segmentHitSq_succ_lt_length hj
      omega
    · intro _
      trivial
  · rw [if_neg hlen]
    exact find_line_from_eq_none_iff x y points 0

theorem find_line_at_position_succ_lt_length {points : List (ℤ × ℤ)} {x y : ℤ} {i : ℕ}
    (h : find_line_at_position points x y = some i) : i + 1 < points.length :=
  segmentHitSq_succ_lt_length ((find_line_at_position_eq_some_iff points x y i).mp h).1

/-! ## Projection case analysis for `point_to_line_distance` -/

theorem line_length_squared_ne_zero {x1 y1 x2 y2 : ℚ} (h : ¬(x1 = x2 ∧ y1 = y2)) :
    line_length_squared x1 y1 x2 y2 ≠ 0 := by
  intro h0
  unfold line_length_squared at h0
  apply h
  have hx2 : (x2 - x1) ^ 2 = 0 := by nlinarith [sq_nonneg (x2 - x1), sq_nonneg (y2 - y1)]
  have hy2 : (y2 - y1) ^ 2 = 0 := by nlinarith [sq_nonneg (x2 - x1), sq_nonneg (y2 - y1)]
  have hx : x2 - x1 = 0 := by
    have := pow_eq_zero_iff (n := 2) (by norm_num) |>.mp hx2
    exact this
  have hy : y2 - y1 = 0 := by
    have := pow_eq_zero_iff (n := 2) (by norm_num) |>.mp hy2
    exact this
  constructor <;> linarith

theorem point_to_line_distance_sq_degenerate (px py x1 y1 x2 y2 : ℚ)
    (hx : x1 = x2) (hy : y1 = y2) :
    point_to_line_distance_sq px py x1 y1 x2 y2 = (px - x1) ^ 2 + (py - y1) ^ 2 := by
  unfold point_to_line_distance_sq
  rw [if_pos ⟨hx, hy⟩]

theorem projection_raw_eq_of_degenerate (px py x1 y1 x2 y2 : ℚ)
    (hx : x1 = x2) (hy : y1 = y2) : projection_raw px py x1 y1 x2 y2 = 0 := by
  subst hx; subst hy
  unfold projection_raw line_length_squared
  simp

theorem point_to_line_distance_sq_on_segment (px py x1 y1 x2 y2 s : ℚ)
    (hs0 : 0 ≤ s) (hs1 : s ≤ 1)
    (hpx : px = x1 + s * (x2 - x1)) (hpy : py = y1 + s * (y2 - y1)) :
    point_to_line_distance_sq px py x1 y1 x2 y2 = 0 := by
  unfold point_to_line_distance_sq
  by_cases hdeg : x1 = x2 ∧ y1 = y2
  · rw [if_pos hdeg]
    obtain ⟨hx, hy⟩ := hdeg
    subst hpx; subst hpy
    rw [← hx, ← hy]
    ring
  · rw [if_neg hdeg]
    have hlen := line_length_squared_ne_zero hdeg
    have hproj : projection_raw px py x1 y1 x2 y2 = s := by
      unfold projection_raw dot_product_point_line
      have hdot : (px - x1) * (x2 - x1) + (py - y1) * (y2 - y1)
          = s * line_length_squared x1 y1 x2 y2 := by
        subst hpx; subst hpy
        unfold line_length_squared
        ring
      rw [hdot, mul_div_assoc, div_self hlen, mul_one]
    have hclamp : projection_clamped px py x1 y1 x2 y2 = s := by
      unfold projection_clamped
      rw [hproj, min_eq_right hs1, max_eq_right hs0]
    dsimp only
    rw [hclamp]
    subst hpx; subst hpy
    ring

theorem point_to_line_distance_sq_before_start (px py x1 y1 x2 y2 : ℚ)
    (ht : projection_raw px py x1 y1 x2 y2 < 0) :
    point_to_line_distance_sq px py x1 y1 x2 y2 = (px - x1) ^ 2 + (py - y1) ^ 2 := by
  unfold point_to_line_distance_sq
  by_cases hdeg : x1 = x2 ∧ y1 = y2
  · rw [if_pos hdeg]
  · rw [if_neg hdeg]
    have hclamp : projection_clamped px py x1 y1 x2 y2 = 0 := by
      unfold projection_clamped
      rw [min_eq_right (le_of_lt (lt_of_lt_of_le ht zero_le_one)), max_eq_left (le_of_lt ht)]
    dsimp only
    rw [hclamp]
    ring

theorem point_to_line_distance_sq_beyond_end (px py x1 y1 x2 y2 : ℚ)
    (ht : 1 < projection_raw px py x1 y1 x2 y2) :
    point_to_line_distance_sq px py x1 y1 x2 y2 = (px - x2) ^ 2 + (py - y2) ^ 2 := by
  unfold point_to_line_distance_sq
  by_cases hdeg : x1 = x2 ∧ y1 = y2
  · rw [if_pos hdeg]
    obtain ⟨hx, hy⟩ := hdeg
    rw [hx, hy]
  · rw [if_neg hdeg]
    have hclamp : projection_clamped px py x1 y1 x2 y2 = 1 := by
      unfold projection_clamped
      rw [min_eq_left (le_of_lt ht), max_eq_right zero_le_one]
    dsimp only
    rw [hclamp]
    ring

/-! ## Frame lemmas for the event handlers -/

theorem on_canvas_click_hit (s : EditorState) (x y : ℤ) (i : ℕ)
    (hf : find_point_at_position s.points x y = some i) :
    on_canvas_click s x y =
      { s with dragging := true, drag_point_index := some i
               drag_start_x := x, drag_start_y := y } := by
  unfold on_canvas_click
  rw [hf]

theorem on_canvas_click_insert (s : EditorState) (x y : ℤ) (seg : ℕ)
    (hf : find_point_at_position s.points x y = none)
    (hl : find_line_at_position s.points x y = some seg) :
    on_canvas_click s x y = { s with points := s.points.insertIdx (seg + 1) (x, y) } := by
  unfold on_canvas_click
  rw [hf, hl]

theorem on_canvas_click_append (s : EditorState) (x y : ℤ)
    (hf : find_point_at_position s.points x y = none)
    (hl : find_line_at_position s.points x y = none) :
    on_canvas_click s x y = { s with points := s.points ++ [(x, y)] } := by
  unfold on_canvas_click
  rw [hf, hl]

theorem on_canvas_drag_not_dragging (s : EditorState) (x y : ℤ)
    (h : s.dragging = false) : on_canvas_drag s x y = some s := by
  unfold on_canvas_drag
  rw [if_neg (by rw [h]; simp)]

theorem on_canvas_drag_fields {s s' : EditorState} {x y : ℤ}
    (h : on_canvas_drag s x y = some s') :
    s'.dragging = s.dragging ∧ s'.drag_point_index = s.drag_point_index ∧
      s'.points.length = s.points.length := by
  unfold on_canvas_drag at h
  split at h
  · split at h
    · split at h
      · cases h
        exact ⟨rfl, rfl, by simp⟩
      · cases h
    · cases h
      exact ⟨rfl, rfl, rfl⟩
  · cases h
    exact ⟨rfl, rfl, rfl⟩

theorem on_canvas_drag_dragging (s : EditorState) (x y : ℤ) (i : ℕ)
    (hd : s.dragging = true) (hidx : s.drag_point_index = some i)
    (hlt : i < s.points.length) :
    on_canvas_drag s x y = some { s with points := s.points.set i (x, y) } := by
  unfold on_canvas_drag
  rw [if_pos hd]
  split
  next i' heq =>
    rw [hidx] at heq
    cases heq
    rw [if_pos hlt]
  next heq =>
    rw [hidx] at heq
    cases heq

theorem on_canvas_release_not_dragging (s : EditorState) (x y : ℤ)
    (h : s.dragging = false) : on_canvas_release s x y = some s := by
  unfold on_canvas_release
  rw [if_neg (by rw [h]; simp)]

theorem on_canvas_release_dragging (s : EditorState) (x y : ℤ) (i : ℕ)
    (hd : s.dragging = true) (hidx : s.drag_point_index = some i)
    (hlt : i < s.points.length) :
    on_canvas_release s x y =
      some { s with points := s.points.set i (x, y)
                    dragging := false, drag_point_index := none } := by
  unfold on_canvas_release
  rw [if_pos hd]
  split
  next i' heq =>
    rw [hidx] at heq
    cases heq
    rw [if_pos hlt]
  next heq =>
    rw [hidx] at heq
    cases heq

theorem on_canvas_release_clears {s s' : EditorState} {x y : ℤ}
    (h : on_canvas_release s x y = some s') (hd : s.dragging = true) :
    s'.dragging = false ∧ s'.drag_point_index = none := by
  unfold on_canvas_release at h
  rw [if_pos hd] at h
  split at h
  · split at h
    · cases h
      exact ⟨rfl, rfl⟩
    · cases h
  · cases h

theorem delete_point_at_mouse_frame (s : EditorState) :
    (delete_point_at_mouse s).dragging = s.dragging ∧
      (delete_point_at_mouse s).drag_point_index = s.drag_point_index ∧
      (delete_point_at_mouse s).mouse_x = s.mouse_x ∧
      (delete_point_at_mouse s).mouse_y = s.mouse_y := by
  unfold delete_point_at_mouse
  cases find_point_at_position s.points s.mouse_x s.mouse_y with
  | none => exact ⟨rfl, rfl, rfl, rfl⟩
  | some i => exact ⟨rfl, rfl, rfl, rfl⟩

theorem clear_points_frame (s : EditorState) :
    (clear_points s).dragging = s.dragging ∧
      (clear_points s).drag_point_index = s.drag_point_index := ⟨rfl, rfl⟩

theorem on_mouse_move_frame (s : EditorState) (x y : ℤ) :
    (on_mouse_move s x y).dragging = s.dragging ∧
      (on_mouse_move s x y).drag_point_index = s.drag_point_index ∧
      (on_mouse_move s x y).points = s.points := ⟨rfl, rfl, rfl⟩

/-! ## The drag-state synchronisation invariant -/

theorem dragSync_initState : DragSync initState := by
  unfold DragSync initState
  simp

theorem dragSync_step (s : EditorState) (e : Event) (h : DragSync s) :
    DragSync (step s e) := by
  unfold DragSync at h ⊢
  cases e with
  | click x y =>
    show (on_canvas_click s x y).dragging = true ↔
      (on_canvas_click s x y).drag_point_index ≠ none
    cases hf : find_point_at_position s.points x y with
    | some i =>
      rw [on_canvas_click_hit s x y i hf]
      simp
    | none =>
      cases hl : find_line_at_position s.points x y with
      | some seg =>
        rw [on_canvas_click_insert s x y seg hf hl]
        exact h
      | none =>
        rw [on_canvas_click_append s x y hf hl]
        exact h
  | drag x y =>
    show ((on_canvas_drag s x y).getD s).dragging = true ↔
      ((on_canvas_drag s x y).getD s).drag_point_index ≠ none
    cases hres : on_canvas_drag s x y with
    | none => exact h
    | some s' =>
      obtain ⟨h1, h2, -⟩ := on_canvas_drag_fields hres
      simp only [Option.getD_some, h1, h2]
      exact h
  | release x y =>
    show ((on_canvas_release s x y).getD s).dragging = true ↔
      ((on_canvas_release s x y).getD s).drag_point_index ≠ none
    cases hres : on_canvas_release s x y with
    | none => exact h
    | some s' =>
      by_cases hd : s.dragging = true
      · obtain ⟨h1, h2⟩ := on_canvas_release_clears hres hd
        simp [h1, h2]
      · have hs : s.dragging = false := by
          cases hb : s.dragging
          · rfl
          · exact absurd hb hd
        rw [on_canvas_release_not_dragging s x y hs] at hres
        cases hres
        simp only [Option.getD_some]
        exact h
  | move x y =>
    exact h
  | keyD =>
    show (delete_point_at_mouse s).dragging = true ↔
      (delete_point_at_mouse s).drag_point_index ≠ none
    obtain ⟨h1, h2, -, -⟩ := delete_point_at_mouse_frame s
    rw [h1, h2]
    exact h
  | clearAll =>
    exact h

theorem reachable_dragSync {s : EditorState} (h : Reachable s) : DragSync s := by
  obtain ⟨events, rfl⟩ := h
  unfold run
  induction events using List.reverseRecOn with
  | nil => exact dragSync_initState
  | append_singleton events e ih =>
    rw [List.foldl_append, List.foldl_cons, List.foldl_nil]
    exact dragSync_step _ e ih

theorem dragSync_none_of_not_dragging {s : EditorState} (hsync : DragSync s)
    (h : s.dragging = false) : s.drag_point_index = none := by
  by_contra hne
  have : s.dragging = true := hsync.mpr hne
  rw [h] at this
  cases this

theorem dragIndexValid_initState : DragIndexValid initState := by
  unfold DragIndexValid initState
  intro i h
  cases h

theorem safe_step_preserves (s : EditorState) (e : Event)
    (hsafe : (e = Event.keyD ∨ e = Event.clearAll) → s.dragging = false)
    (h : DragSync s ∧ DragIndexValid s) :
    DragSync (step s e) ∧ DragIndexValid (step s e) := by
  obtain ⟨hsync, hvalid⟩ := h
  refine ⟨dragSync_step s e hsync, ?_⟩
  unfold DragIndexValid at hvalid ⊢
  cases e with
  | click x y =>
    show ∀ i, (on_canvas_click s x y).drag_point_index = some i →
      i < (on_canvas_click s x y).points.length
    cases hf : find_point_at_position s.points x y with
    | some j =>
      rw [on_canvas_click_hit s x y j hf]
      intro i hi
      simp only [Option.some_inj] at hi
      subst hi
      exact find_point_at_position_lt_length hf
    | none =>
      cases hl : find_line_at_position s.points x y with
      | some seg =>
        rw [on_canvas_click_insert s x y seg hf hl]
        intro i hi
        have hseg : seg + 1 ≤ s.points.length := by
          have := find_line_at_position_succ_lt_length hl
          omega
        have hlen : (s.points.insertIdx (seg + 1) (x, y)).length = s.points.length + 1 :=
          List.length_insertIdx (seg + 1) s.points hseg
        have := hvalid i hi
        simp only [hlen]
        omega
      | none =>
        rw [on_canvas_click_append s x y hf hl]
        intro i hi
        have := hvalid i hi
        simp only [List.length_append, List.length_singleton]
        omega
  | drag x y =>
    show ∀ i, ((on_canvas_drag s x y).getD s).drag_point_index = some i →
      i < ((on_canvas_drag s x y).getD s).points.length
    cases hres : on_canvas_drag s x y with
    | none => exact hvalid
    | some s' =>
      obtain ⟨-, h2, h3⟩ := on_canvas_drag_fields hres
      intro i hi
      simp only [Option.getD_some] at hi ⊢
      rw [h2] at hi
      rw [h3]
      exact hvalid i hi
  | release x y =>
    show ∀ i, ((on_canvas_release s x y).getD s).drag_point_index = some i →
      i < ((on_canvas_release s x y).getD s).points.length
    cases hres : on_canvas_release s x y with
    | none => exact hvalid
    | some s' =>
      by_cases hd : s.dragging = true
      · obtain ⟨-, h2⟩ := on_canvas_release_clears hres hd
        intro i hi
        simp only [Option.getD_some] at hi
        rw [h2] at hi
        cases hi
      · have hs : s.dragging = false := by
          cases hb : s.dragging
          · rfl
          · exact absurd hb hd
        rw [on_canvas_release_not_dragging s x y hs] at hres
        cases hres
        exact hvalid
  | move x y =>
    exact hvalid
  | keyD =>
    have hdrag : s.dragging = false := hsafe (Or.inl rfl)
    have hidx : s.drag_point_index = none := dragSync_none_of_not_dragging hsync hdrag
    show ∀ i, (delete_point_at_mouse s).drag_point_index = some i →
      i < (delete_point_at_mouse s).points.length
    obtain ⟨-, h2, -, -⟩ := delete_point_at_mouse_frame s
    intro i hi
    rw [h2, hidx] at hi
    cases hi
  | clearAll =>
    have hdrag : s.dragging = false := hsafe (Or.inr rfl)
    have hidx : s.drag_point_index = none := dragSync_none_of_not_dragging hsync hdrag
    show ∀ i, (clear_points s).drag_point_index = some i →
      i < (clear_points s).points.length
    intro i hi
    rw [(clear_points_frame s).2, hidx] at hi
    cases hi

theorem safeReachable_invariant {s : EditorState} (h : SafeReachable s) :
    DragSync s ∧ DragIndexValid s := by
  induction h with
  | init => exact ⟨dragSync_initState, dragIndexValid_initState⟩
  | next s e hs hsafe ih => exact safe_step_preserves s e hsafe ih

/-! ## Drag sequences (for the frame property of a begin/update/end drag) -/

theorem dragInv_step (s0 : EditorState) (i : ℕ) (hi : i < s0.points.length)
    (t : EditorState) (x y : ℤ) (h : DragInv s0 i t) :
    DragInv s0 i (step t (Event.drag x y)) := by
  obtain ⟨hd, hidx, hlen, hframe⟩ := h
  have hlt : i < t.points.length := by rw [hlen]; exact hi
  have hres := on_canvas_drag_dragging t x y i hd hidx hlt
  show DragInv s0 i ((on_canvas_drag t x y).getD t)
  rw [hres]
  refine ⟨hd, hidx, by simpa using hlen, ?_⟩
  intro j hj
  simp only [Option.getD_some]
  rw [List.getElem?_set_ne (fun hij => hj hij.symm)]
  exact hframe j hj

theorem dragInv_fold (s0 : EditorState) (i : ℕ) (hi : i < s0.points.length) :
    ∀ (ds : List (ℤ × ℤ)) (t : EditorState), DragInv s0 i t →
      DragInv s0 i (ds.foldl (fun u q => step u (Event.drag q.1 q.2)) t) := by
  intro ds
  induction ds with
  | nil => intro t h; exact h
  | cons q rest ih =>
    intro t h
    rw [List.foldl_cons]
    exact ih _ (dragInv_step s0 i hi t q.1 q.2 h)

theorem dragInv_release (s0 : EditorState) (i : ℕ) (hi : i < s0.points.length)
    (t : EditorState) (x y : ℤ) (h : DragInv s0 i t) :
    (step t (Event.release x y)).points.length = s0.points.length ∧
      (∀ j, j ≠ i → (step t (Event.release x y)).points[j]? = s0.points[j]?) ∧
      (step t (Event.release x y)).dragging = false := by
  obtain ⟨hd, hidx, hlen, hframe⟩ := h
  have hlt : i < t.points.length := by rw [hlen]; exact hi
  have hres := on_canvas_release_dragging t x y i hd hidx hlt
  show ((on_canvas_release t x y).getD t).points.length = s0.points.length ∧
    (∀ j, j ≠ i → ((on_canvas_release t x y).getD t).points[j]? = s0.points[j]?) ∧
    ((on_canvas_release t x y).getD t).dragging = false
  rw [hres]
  refine ⟨by simpa using hlen, ?_, rfl⟩
  intro j hj
  simp only [Option.getD_some]
  rw [List.getElem?_set_ne (fun hij => hj hij.symm)]
  exact hframe j hj

theorem delete_point_at_mouse_found (s : EditorState) (i : ℕ)
    (hf : find_point_at_position s.points s.mouse_x s.mouse_y = some i) :
    delete_point_at_mouse s = { s with points := s.points.eraseIdx i } := by
  unfold delete_point_at_mouse
  rw [hf]

theorem delete_point_at_mouse_notfound (s : EditorState)
    (hf : find_point_at_position s.points s.mouse_x s.mouse_y = none) :
    delete_point_at_mouse s = s := by
  unfold delete_point_at_mouse
  rw [hf]

/-! ## Claim theorems -/

/-- C1 (amended): `on_canvas_click` classifies in a fixed priority order:
if some existing point lies within `click_radius` (8 px) of the position it
starts a drag of the first such point; otherwise, if some segment lies
within `line_click_tolerance` (5 px) it inserts the clicked coordinates at
index `segment_index + 1`; otherwise it appends the clicked coordinates.
The concrete illustration is amended: on `[(0,0), (10,0)]` the original
example click `(5,1)` is within 8 px of `(0,0)` and so would start a drag;
on `[(0,0), (20,0)]` a click at `(10,1)` does yield an insertion,
producing `[(0,0), (10,1), (20,0)]`. -/
theorem begin_interaction_classification :
    (∀ (s : EditorState) (x y : ℤ),
      ((∃ i, PointHit s.points x y i) →
        ∃ i, (PointHit s.points x y i ∧ ∀ m < i, ¬ PointHit s.points x y m) ∧
          on_canvas_click s x y =
            { s with dragging := true, drag_point_index := some i
                     drag_start_x := x, drag_start_y := y }) ∧
      ((∀ i, ¬ PointHit s.points x y i) →
        ((∃ seg, SegmentHit s.points x y seg) →
          ∃ seg, (SegmentHit s.points x y seg ∧ ∀ m < seg, ¬ SegmentHit s.points x y m) ∧
            (on_canvas_click s x y).points = s.points.insertIdx (seg + 1) (x, y)) ∧
        ((∀ seg, ¬ SegmentHit s.points x y seg) →
          (on_canvas_click s x y).points = s.points ++ [(x, y)]))) ∧
    (on_canvas_click
        { points := [(0, 0), (20, 0)], dragging := false, drag_point_index := none
          drag_start_x := 0, drag_start_y := 0, mouse_x := 0, mouse_y := 0 } 10 1).points
      = [(0, 0), (10, 1), (20, 0)] := by
  constructor
  · intro s x y
    constructor
    · rintro ⟨i0, hi0⟩
      cases hf : find_point_at_position s.points x y with
      | none =>
        rw [find_point_at_position_eq_none_iff] at hf
        exact absurd ((pointHit_iff_sq _ _ _ _).mp hi0) (hf i0)
      | some i =>
        obtain ⟨hhit, hmin⟩ := (find_point_at_position_eq_some_iff _ _ _ _).mp hf
        refine ⟨i, ⟨(pointHit_iff_sq _ _ _ _).mpr hhit, ?_⟩, on_canvas_click_hit s x y i hf⟩
        intro m hm hPm
        exact hmin m hm ((pointHit_iff_sq _ _ _ _).mp hPm)
    · intro hnone
      have hf : find_point_at_position s.points x y = none := by
        rw [find_point_at_position_eq_none_iff]
        intro j hj
        exact hnone j ((pointHit_iff_sq _ _ _ _).mpr hj)
      constructor
      · rintro ⟨seg0, hseg0⟩
        cases hl : find_line_at_position s.points x y with
        | none =>
          rw [find_line_at_position_eq_none_iff] at hl
          exact absurd ((segmentHit_iff_sq _ _ _ _).mp hseg0) (hl seg0)
        | some seg =>
          obtain ⟨hhit, hmin⟩ := (find_line_at_position_eq_some_iff _ _ _ _).mp hl
          refine ⟨seg, ⟨(segmentHit_iff_sq _ _ _ _).mpr hhit, ?_⟩, ?_⟩
          · intro m hm hPm
            exact hmin m hm ((segmentHit_iff_sq _ _ _ _).mp hPm)
          · rw [on_canvas_click_insert s x y seg hf hl]
      · intro hsegnone
        have hl : find_line_at_position s.points x y = none := by
          rw [find_line_at_position_eq_none_iff]
          intro j hj
          exact hsegnone j ((segmentHit_iff_sq _ _ _ _).mpr hj)
        rw [on_canvas_click_append s x y hf hl]
  · norm_num [on_canvas_click, find_point_at_position, find_point_from, find_line_at_position,
      find_line_from, point_to_line_distance_sq, projection_clamped, projection_raw,
      dot_product_point_line, line_length_squared, distSq, click_radius, point_radius,
      line_click_tolerance, List.insertIdx]

/-- C1 counterexample: the claim's own example is wrong on this code.  On
trace `[(0,0), (10,0)]` the click `(5,1)` is within `click_radius` of point
0 (squared distance 26 <= 64), so `on_canvas_click` starts a drag and the
trace stays `[(0,0), (10,0)]` — not `[(0,0), (5,1), (10,0)]` as claimed. -/
theorem begin_interaction_example_cex :
    find_point_at_position [(0, 0), (10, 0)] 5 1 = some 0 ∧
    (on_canvas_click
        { points := [(0, 0), (10, 0)], dragging := false, drag_point_index := none
          drag_start_x := 0, drag_start_y := 0, mouse_x := 0, mouse_y := 0 } 5 1).points
      = [(0, 0), (10, 0)] ∧
    (on_canvas_click
        { points := [(0, 0), (10, 0)], dragging := false, drag_point_index := none
          drag_start_x := 0, drag_start_y := 0, mouse_x := 0, mouse_y := 0 } 5 1).points
      ≠ [(0, 0), (5, 1), (10, 0)] := by
  refine ⟨by decide, by decide, by decide⟩

/-- C1 witness: the append branch at a concrete input. -/
theorem begin_interaction_classification_witness :
    (on_canvas_click initState 50 50).points = initState.points ++ [((50 : ℤ), (50 : ℤ))] :=
  ((begin_interaction_classification.1 initState 50 50).2
      (by rintro i ⟨px, py, h, -⟩; simp [initState] at h)).2
    (by rintro seg ⟨x1, y1, x2, y2, h, -⟩; simp [initState] at h)

/-- C2: both hit tests are first-match in index order: the point test
returns the lowest index within Euclidean distance 8 of the target, the
segment test the lowest index whose segment is within distance 5, each
`none` exactly when no candidate qualifies.  Being lowest-index-first, the
scans pick the first qualifying candidate even when a later one is closer. -/
theorem hit_tests_first_match :
    ∀ (points : List (ℤ × ℤ)) (x y : ℤ),
      (∀ i, find_point_at_position points x y = some i ↔
        PointHit points x y i ∧ ∀ m < i, ¬ PointHit points x y m) ∧
      (find_point_at_position points x y = none ↔ ∀ i, ¬ PointHit points x y i) ∧
      (∀ i, find_line_at_position points x y = some i ↔
        SegmentHit points x y i ∧ ∀ m < i, ¬ SegmentHit points x y m) ∧
      (find_line_at_position points x y = none ↔ ∀ i, ¬ SegmentHit points x y i) := by
  intro points x y
  simp only [pointHit_iff_sq, segmentHit_iff_sq]
  exact ⟨fun i => find_point_at_position_eq_some_iff points x y i,
    find_point_at_position_eq_none_iff points x y,
    fun i => find_line_at_position_eq_some_iff points x y i,
    find_line_at_position_eq_none_iff points x y⟩

/-- C2 witness: a two-point trace where both points are within
`click_radius` of the target and the second is strictly closer; the scan
still returns index 0 (first-inserted wins), and on the empty trace both
tests return `none`. -/
theorem hit_tests_first_match_witness :
    find_point_at_position [((0 : ℤ), (0 : ℤ)), (1, 0)] 1 0 = some 0 ∧
    find_point_at_position ([] : List (ℤ × ℤ)) 0 0 = none ∧
    find_line_at_position ([] : List (ℤ × ℤ)) 0 0 = none := by
  refine ⟨((hit_tests_first_match [(0, 0), (1, 0)] 1 0).1 0).mpr ⟨?_, ?_⟩,
    ((hit_tests_first_match [] 0 0).2.1).mpr ?_,
    ((hit_tests_first_match [] 0 0).2.2.2).mpr ?_⟩
  · exact (pointHit_iff_sq _ _ _ _).mpr ⟨0, 0, rfl, by decide⟩
  · intro m hm
    exact absurd hm (Nat.not_lt_zero m)
  · rintro i ⟨px, py, h, -⟩
    simp at h
  · rintro i ⟨x1, y1, x2, y2, h, -⟩
    simp at h

/-- C3: `point_to_line_distance` equals the distance to `a` on a degenerate
segment `a == b`; equals 0 for a point exactly on the segment; and for a
projection parameter outside `[0, 1]` equals the distance to the endpoint
the parameter clamps to. -/
theorem point_to_segment_distance_cases :
    ∀ px py x1 y1 x2 y2 : ℚ,
      (x1 = x2 → y1 = y2 →
        point_to_line_distance px py x1 y1 x2 y2 = distance px py x1 y1) ∧
      (∀ s : ℚ, 0 ≤ s → s ≤ 1 → px = x1 + s * (x2 - x1) → py = y1 + s * (y2 - y1) →
        point_to_line_distance px py x1 y1 x2 y2 = 0) ∧
      (projection_raw px py x1 y1 x2 y2 < 0 →
        point_to_line_distance px py x1 y1 x2 y2 = distance px py x1 y1) ∧
      (1 < projection_raw px py x1 y1 x2 y2 →
        point_to_line_distance px py x1 y1 x2 y2 = distance px py x2 y2) := by
  intro px py x1 y1 x2 y2
  refine ⟨?_, ?_, ?_, ?_⟩
  · intro hx hy
    unfold point_to_line_distance distance
    rw [point_to_line_distance_sq_degenerate px py x1 y1 x2 y2 hx hy]
  · intro s hs0 hs1 hpx hpy
    unfold point_to_line_distance
    rw [point_to_line_distance_sq_on_segment px py x1 y1 x2 y2 s hs0 hs1 hpx hpy]
    simp
  · intro ht
    unfold point_to_line_distance distance
    rw [point_to_line_distance_sq_before_start px py x1 y1 x2 y2 ht]
  · intro ht
    unfold point_to_line_distance distance
    rw [point_to_line_distance_sq_beyond_end px py x1 y1 x2 y2 ht]

/-- C3 witness: the four cases at concrete inputs — degenerate segment,
point on the segment, projection parameter below 0, and above 1. -/
theorem point_to_segment_distance_cases_witness :
    point_to_line_distance 3 4 0 0 0 0 = distance 3 4 0 0 ∧
    point_to_line_distance 1 0 0 0 2 0 = 0 ∧
    point_to_line_distance (-1) 0 0 0 2 0 = distance (-1) 0 0 0 ∧
    point_to_line_distance 3 0 0 0 2 0 = distance 3 0 2 0 :=
  ⟨(point_to_segment_distance_cases 3 4 0 0 0 0).1 rfl rfl,
   (point_to_segment_distance_cases 1 0 0 0 2 0).2.1 (1 / 2) (by norm_num) (by norm_num)
     (by norm_num) (by norm_num),
   (point_to_segment_distance_cases (-1) 0 0 0 2 0).2.2.1
     (by norm_num [projection_raw, dot_product_point_line, line_length_squared]),
   (point_to_segment_distance_cases 3 0 0 0 2 0).2.2.2
     (by norm_num [projection_raw, dot_product_point_line, line_length_squared])⟩

/-- C4 (amended): `delete_point_at_mouse` removes the lowest-indexed point
within `click_radius` of the tracked mouse position (`List.eraseIdx`: the
trace shrinks by exactly one and all later indices shift down by one); drag
state is never modified by a deletion — in particular it is NOT cleared
when the deleted point is the one being dragged; when no point qualifies
(including the empty trace) the state is left unchanged. -/
theorem delete_near_amended :
    ∀ s : EditorState,
      ((delete_point_at_mouse s).dragging = s.dragging ∧
        (delete_point_at_mouse s).drag_point_index = s.drag_point_index) ∧
      (∀ i, (PointHit s.points s.mouse_x s.mouse_y i ∧
          ∀ m < i, ¬ PointHit s.points s.mouse_x s.mouse_y m) →
        (delete_point_at_mouse s).points = s.points.eraseIdx i ∧
        (delete_point_at_mouse s).points.length + 1 = s.points.length) ∧
      ((∀ i, ¬ PointHit s.points s.mouse_x s.mouse_y i) → delete_point_at_mouse s = s) := by
  intro s
  obtain ⟨h1, h2, -, -⟩ := delete_point_at_mouse_frame s
  refine ⟨⟨h1, h2⟩, ?_, ?_⟩
  · rintro i ⟨hhit, hmin⟩
    have hf : find_point_at_position s.points s.mouse_x s.mouse_y = some i := by
      rw [find_point_at_position_eq_some_iff]
      exact ⟨(pointHit_iff_sq _ _ _ _).mp hhit,
        fun m hm hsq => hmin m hm ((pointHit_iff_sq _ _ _ _).mpr hsq)⟩
    have hlt : i < s.points.length := find_point_at_position_lt_length hf
    rw [delete_point_at_mouse_found s i hf]
    exact ⟨rfl, List.length_eraseIdx_add_one hlt⟩
  · intro hnone
    apply delete_point_at_mouse_notfound
    rw [find_point_at_position_eq_none_iff]
    exact fun j hj => hnone j ((pointHit_iff_sq _ _ _ _).mpr hj)

/-- C4 counterexample: deleting the very point being dragged does NOT clear
the drag state.  After click-append, click-drag-start on the same point and
a delete at the mouse position, the trace is empty while `dragging` is
still `True` and the stale index 0 is still stored. -/
theorem delete_near_drag_state_cex :
    (delete_point_at_mouse (run [Event.click 0 0, Event.click 0 0, Event.move 0 0])).points
      = [] ∧
    (delete_point_at_mouse (run [Event.click 0 0, Event.click 0 0, Event.move 0 0])).dragging
      = true ∧
    (delete_point_at_mouse
        (run [Event.click 0 0, Event.click 0 0, Event.move 0 0])).drag_point_index
      = some 0 :=
  ⟨by decide, by decide, by decide⟩

/-- C4 witness: deleting the single point of a one-point trace with the
mouse on it. -/
theorem delete_near_amended_witness :
    (delete_point_at_mouse ⟨[(0, 0)], false, none, 0, 0, 0, 0⟩).points
      = List.eraseIdx [((0 : ℤ), (0 : ℤ))] 0 :=
  ((delete_near_amended ⟨[(0, 0)], false, none, 0, 0, 0, 0⟩).2.1 0
    ⟨(pointHit_iff_sq _ _ _ _).mpr ⟨0, 0, rfl, by decide⟩,
     fun m hm => absurd hm (Nat.not_lt_zero m)⟩).1

/-- C5 (amended): `clear_points` unconditionally empties the trace and is
idempotent (no error on a second call), but it does NOT touch the drag
state — `dragging` and `drag_point_index` are left exactly as they were. -/
theorem clear_amended :
    ∀ s : EditorState,
      (clear_points s).points = [] ∧
      (clear_points (clear_points s)).points = [] ∧
      clear_points (clear_points s) = clear_points s ∧
      (clear_points s).dragging = s.dragging ∧
      (clear_points s).drag_point_index = s.drag_point_index :=
  fun _ => ⟨rfl, rfl, rfl, rfl, rfl⟩

/-- C5 counterexample: `clear_points` invoked mid-drag empties the trace
but leaves `dragging = True` with the stale index still stored, refuting
"clears drag state". -/
theorem clear_drag_state_cex :
    (clear_points (run [Event.click 0 0, Event.click 0 0])).points = [] ∧
    (clear_points (run [Event.click 0 0, Event.click 0 0])).dragging = true ∧
    (clear_points (run [Event.click 0 0, Event.click 0 0])).drag_point_index = some 0 :=
  ⟨by decide, by decide, by decide⟩

/-- C6 (amended): the drag-index validity invariant holds for every state
reachable by event sequences in which deletion and clearing happen only
while no drag is active.  (Unrestricted, the invariant fails: neither
`delete_point_at_mouse` nor `clear_points` clears or adjusts the drag
state.) -/
theorem drag_index_validity_amended :
    ∀ s : EditorState, SafeReachable s →
      ∀ i, s.drag_point_index = some i → i < s.points.length :=
  fun _ h => (safeReachable_invariant h).2

/-- C6 counterexample: a reachable state (drag started on the only point,
then `d` pressed with the mouse on it) whose drag index 0 is stored while
the trace is empty — the stored index is out of bounds. -/
theorem drag_index_validity_cex :
    (run [Event.click 0 0, Event.click 0 0, Event.move 0 0, Event.keyD]).drag_point_index
      = some 0 ∧
    (run [Event.click 0 0, Event.click 0 0, Event.move 0 0, Event.keyD]).points.length = 0 :=
  ⟨by decide, by decide⟩

/-- C6 witness: a safely-reached dragging state with a valid index. -/
theorem drag_index_validity_witness :
    (step (step initState (Event.click 0 0)) (Event.click 0 0)).drag_point_index = some 0 ∧
    0 < (step (step initState (Event.click 0 0)) (Event.click 0 0)).points.length :=
  ⟨by decide,
   drag_index_validity_amended _
     (SafeReachable.next _ _
       (SafeReachable.next _ _ SafeReachable.init (by rintro (h | h) <;> cases h))
       (by rintro (h | h) <;> cases h))
     0 (by decide)⟩

/-- C7: a drag sequence (click hitting an existing point, any number of
drag-move events, then release) preserves the trace length and leaves every
point other than the dragged index exactly as it was, ending not dragging;
and a drag-move event while not dragging is a no-op on the state. -/
theorem drag_preserves_length :
    (∀ (s : EditorState) (cx cy : ℤ) (i : ℕ) (ds : List (ℤ × ℤ)) (rx ry : ℤ),
      find_point_at_position s.points cx cy = some i →
      (step (ds.foldl (fun t q => step t (Event.drag q.1 q.2)) (on_canvas_click s cx cy))
          (Event.release rx ry)).points.length = s.points.length ∧
      (∀ j, j ≠ i →
        (step (ds.foldl (fun t q => step t (Event.drag q.1 q.2)) (on_canvas_click s cx cy))
            (Event.release rx ry)).points[j]? = s.points[j]?) ∧
      (step (ds.foldl (fun t q => step t (Event.drag q.1 q.2)) (on_canvas_click s cx cy))
          (Event.release rx ry)).dragging = false) ∧
    (∀ (s : EditorState) (x y : ℤ), s.dragging = false → on_canvas_drag s x y = some s) := by
  constructor
  · intro s cx cy i ds rx ry hf
    have hi : i < s.points.length := find_point_at_position_lt_length hf
    have h1 : DragInv s i (on_canvas_click s cx cy) := by
      rw [on_canvas_click_hit s cx cy i hf]
      exact ⟨rfl, rfl, rfl, fun j _ => rfl⟩
    have h2 := dragInv_fold s i hi ds _ h1
    exact dragInv_release s i hi _ rx ry h2
  · exact on_canvas_drag_not_dragging

/-- C7 witness: a one-point trace dragged once and released; length is
preserved. -/
theorem drag_preserves_length_witness :
    (step ([((5 : ℤ), (5 : ℤ))].foldl (fun t q => step t (Event.drag q.1 q.2))
        (on_canvas_click ⟨[(0, 0)], false, none, 0, 0, 0, 0⟩ 0 0))
      (Event.release 7 7)).points.length
      = (⟨[(0, 0)], false, none, 0, 0, 0, 0⟩ : EditorState).points.length :=
  (drag_preserves_length.1 ⟨[(0, 0)], false, none, 0, 0, 0, 0⟩ 0 0 0 [(5, 5)] 7 7
    (by decide)).1

/-- C8 (amended): `copy_coordinates` produces exactly the comma-space
separated list of parenthesised pairs, in trace order; but on the EMPTY
trace it produces nothing at all (the source shows a warning dialog and
returns without copying), not an empty string. -/
theorem export_text_amended :
    copy_coordinates ([] : List (ℤ × ℤ)) = none ∧
    (∀ points : List (ℤ × ℤ), points ≠ [] →
      copy_coordinates points = some (String.intercalate ", "
        (points.map fun p => "(" ++ toString p.1 ++ ", " ++ toString p.2 ++ ")"))) ∧
    copy_coordinates [((1 : ℤ), (2 : ℤ)), (3, 4)] = some "(1, 2), (3, 4)" ∧
    copy_coordinates [((1 : ℤ), (2 : ℤ)), (3, 4), (5, 6)] = some "(1, 2), (3, 4), (5, 6)" := by
  refine ⟨rfl, ?_, by decide, by decide⟩
  intro points h
  unfold copy_coordinates coord_list
  rw [if_neg h]

/-- C8 counterexample: on the empty trace the code produces no string at
all (warning dialog, clipboard untouched) — in particular not the empty
string the claim promises. -/
theorem export_text_empty_cex :
    copy_coordinates ([] : List (ℤ × ℤ)) = none ∧
    copy_coordinates ([] : List (ℤ × ℤ)) ≠ some "" :=
  ⟨rfl, by decide⟩

/-- C8 witness: the non-empty branch at a concrete input. -/
theorem export_text_amended_witness :
    copy_coordinates [((7 : ℤ), (8 : ℤ))] = some (String.intercalate ", "
      ([((7 : ℤ), (8 : ℤ))].map fun p => "(" ++ toString p.1 ++ ", " ++ toString p.2 ++ ")")) :=
  export_text_amended.2.1 [(7, 8)] (by decide)

/-- C9: the division by `line_length_squared` in `point_to_line_distance`
happens only on the branch guarded by the degenerate-segment check, where
the divisor is provably nonzero; the function is total — its squared value
is defined and nonnegative for every input, including `a == b`, and the
distance itself is a nonnegative real. -/
theorem distance_division_guarded :
    ∀ px py x1 y1 x2 y2 : ℚ,
      (¬(x1 = x2 ∧ y1 = y2) → line_length_squared x1 y1 x2 y2 ≠ 0) ∧
      0 ≤ point_to_line_distance_sq px py x1 y1 x2 y2 ∧
      0 ≤ point_to_line_distance px py x1 y1 x2 y2 :=
  fun px py x1 y1 x2 y2 =>
    ⟨fun h => line_length_squared_ne_zero h,
     point_to_line_distance_sq_nonneg px py x1 y1 x2 y2,
     Real.sqrt_nonneg _⟩

/-- C9 witness: a non-degenerate segment has nonzero squared length, and a
degenerate call is still defined. -/
theorem distance_division_guarded_witness :
    line_length_squared 0 0 1 0 ≠ 0 ∧ 0 ≤ point_to_line_distance_sq 2 3 0 0 1 0 :=
  ⟨(distance_division_guarded 2 3 0 0 1 0).1 (by norm_num),
   (distance_division_guarded 2 3 0 0 1 0).2.1⟩

/-- C10: in every reachable state `dragging` is `True` exactly when
`drag_point_index` is not `None`; the pair is set together by a
pointer-down that hits an existing point, cleared together by a release
while dragging, and no other handler modifies either field. -/
theorem drag_flag_index_sync :
    (∀ s : EditorState, Reachable s → (s.dragging = true ↔ s.drag_point_index ≠ none)) ∧
    (∀ (s : EditorState) (x y : ℤ) (i : ℕ), find_point_at_position s.points x y = some i →
      (on_canvas_click s x y).dragging = true ∧
      (on_canvas_click s x y).drag_point_index = some i) ∧
    (∀ (s : EditorState) (x y : ℤ), find_point_at_position s.points x y = none →
      (on_canvas_click s x y).dragging = s.dragging ∧
      (on_canvas_click s x y).drag_point_index = s.drag_point_index) ∧
    (∀ (s s' : EditorState) (x y : ℤ), on_canvas_release s x y = some s' →
      s.dragging = true → s'.dragging = false ∧ s'.drag_point_index = none) ∧
    (∀ (s s' : EditorState) (x y : ℤ), on_canvas_drag s x y = some s' →
      s'.dragging = s.dragging ∧ s'.drag_point_index = s.drag_point_index) ∧
    (∀ s : EditorState, (delete_point_at_mouse s).dragging = s.dragging ∧
      (delete_point_at_mouse s).drag_point_index = s.drag_point_index) ∧
    (∀ s : EditorState, (clear_points s).dragging = s.dragging ∧
      (clear_points s).drag_point_index = s.drag_point_index) ∧
    (∀ (s : EditorState) (x y : ℤ), (on_mouse_move s x y).dragging = s.dragging ∧
      (on_mouse_move s x y).drag_point_index = s.drag_point_index) := by
  refine ⟨?_, ?_, ?_, ?_, ?_, ?_, ?_, ?_⟩
  · exact fun _ h => reachable_dragSync h
  · intro s x y i hf
    rw [on_canvas_click_hit s x y i hf]
    exact ⟨rfl, rfl⟩
  · intro s x y hf
    cases hl : find_line_at_position s.points x y with
    | some seg =>
      rw [on_canvas_click_insert s x y seg hf hl]
      exact ⟨rfl, rfl⟩
    | none =>
      rw [on_canvas_click_append s x y hf hl]
      exact ⟨rfl, rfl⟩
  · intro s s' x y hres hd
    exact on_canvas_release_clears hres hd
  · intro s s' x y hres
    obtain ⟨h1, h2, -⟩ := on_canvas_drag_fields hres
    exact ⟨h1, h2⟩
  · intro s
    obtain ⟨h1, h2, -, -⟩ := delete_point_at_mouse_frame s
    exact ⟨h1, h2⟩
  · exact fun s => clear_points_frame s
  · intro s x y
    obtain ⟨h1, h2, -⟩ := on_mouse_move_frame s x y
    exact ⟨h1, h2⟩

/-- C10 witness: the synchronisation equivalence at the (reachable) initial
state. -/
theorem drag_flag_index_sync_witness :
    initState.dragging = true ↔ initState.drag_point_index ≠ none :=
  drag_flag_index_sync.1 initState ⟨[], rfl⟩

end PointTrace
